import Mathlib

/-!
Verification development for the oaas build service
(`cmd/oaas/handler_build.go`, with the sparse-file support of the
earlier revision of the same file kept in the archive unpacker).

Paths: the Go code manipulates slash-separated path strings.  We embed a
path string as its list of `/`-separated components, the image of Go's
`strings.Split(s, "/")`; the embedding is a bijection as long as each
component is slash-free, and `renderPath` maps a component list back to
the string it stands for.  Under this bijection string concatenation
with a `/` in between is list append, which is what `filepath.Join`
feeds to `filepath.Clean`.
-/

/-- The empty string component (encodes leading/trailing/double slashes). -/
def blank : String := ""

/-- The `.` path component. -/
def dot : String := "."

/-- The `..` path component. -/
def dotdot : String := ".."

/-- The literal first component of the mandated `store/` namespace. -/
def storeStr : String := "store"

/-- A component that `filepath.Clean` passes through unchanged: not
empty, not `.`, not `..`. -/
def NormalComp (c : String) : Prop := c ≠ blank ∧ c ≠ dot ∧ c ≠ dotdot

instance (c : String) : Decidable (NormalComp c) := by
  unfold NormalComp; infer_instance

/-- Render a component list back into the slash-separated Go string it
embeds (`strings.Join(cs, "/")`). -/
def renderPath : List String → String
  | [] => blank
  | [c] => c
  | c :: c' :: cs => c ++ "/" ++ renderPath (c' :: cs)

/-- A path string is rooted (absolute) iff it starts with a slash; on
component lists that is a leading empty component followed by at least
one more component (the bare empty string `[""]` is not rooted). -/
def isRooted : List String → Bool
  | c :: _ :: _ => c = blank
  | _ => false

/-- The component-processing loop of Go `path.Clean` (which
`filepath.Clean` is on slash-separated systems): empty and `.`
components are dropped, `..` pops the latest non-`..` component (or is
dropped at the root of a rooted path, or accumulated at the front of an
unrooted one), anything else is pushed.  `acc` is the stack, most
recent component first. -/
def cleanComps (rooted : Bool) : List String → List String → List String
  | acc, [] => acc.reverse
  | acc, c :: cs =>
    if c = blank ∨ c = dot then cleanComps rooted acc cs
    else if c = dotdot then
      match acc with
      | [] => if rooted then cleanComps rooted [] cs else cleanComps rooted [dotdot] cs
      | t :: ts => if t = dotdot then cleanComps rooted (dotdot :: t :: ts) cs
                   else cleanComps rooted ts cs
    else cleanComps rooted (c :: acc) cs

/-- Go `filepath.Clean` on the component embedding: run the loop, then
re-attach the root for rooted paths and return `.` for an empty
result, exactly as the Go function does. -/
def clean (cs : List String) : List String :=
  if isRooted cs then
    match cleanComps true [] cs with
    | [] => [blank, blank]
    | out => blank :: out
  else
    match cleanComps false [] cs with
    | [] => [dot]
    | out => out

/-- Go `strings.TrimSuffix(name, "/")`: drop one trailing slash, i.e.
one trailing empty component (the whole string `"/"` trims to `""`,
which is `[""] `, hence the length guard). -/
def trimSuffixSlash (cs : List String) : List String :=
  if cs.getLast? = some blank ∧ 2 ≤ cs.length then cs.dropLast else cs

/-- Go `strings.HasPrefix(name, "store/")` on the component embedding:
the first component is literally `store` and the slash after it exists,
i.e. at least one further component follows. -/
def storePrefixed : List String → Bool
  | c :: _ :: _ => c = storeStr
  | _ => false

/-- Go `filepath.Join(a, b)`: join with a slash and clean, which on the
component embedding is cleaning the concatenation. -/
def joinPath (a b : List String) : List String := clean (a ++ b)

/-- A naive substring test, used to state what an error message does or
does not contain. -/
def substrIn (pat s : String) : Bool :=
  (List.range (s.data.length + 1)).any (fun i => pat.data.isPrefixOf (s.data.drop i))

/-! ## Tar entries and the archive unpacker (`handleIncludedSources`) -/

/-- The tar entry type flags the unpacker distinguishes
(`tar.TypeDir`, `tar.TypeReg`, `tar.TypeGNUSparse`, and the rejected
kinds exercised by the tests). -/
inductive TypeFlag
  | dir
  | reg
  | gnuSparse
  | link
  | symlink
  | chrDev
  | blkDev
  | fifo
deriving DecidableEq

/-- The header fields of a tar entry that the unpacker's validation
logic reads. -/
structure TarEntry where
  name : List String
  typeflag : TypeFlag
  mode : Nat
deriving DecidableEq

/-- The kind of filesystem object the unpacker materializes. -/
inductive ObjKind
  | dirObj
  | fileObj
deriving DecidableEq

/-- One filesystem object created by the unpacker: its target path
(`filepath.Join(buildDir, hdr.Name)`) and kind. -/
structure Created where
  path : List String
  kind : ObjKind
  mode : Nat
deriving DecidableEq

/-- The errors `handleIncludedSources` can return. -/
inductive UnpackErr
  | notClean (cleaned raw : List String)
  | storePfx (raw : List String)
  | unsupportedType (t : TypeFlag)
deriving DecidableEq

/-- Render a `TypeFlag` the way Go's `%v` renders the byte constant. -/
def typeFlagByte : TypeFlag → Nat
  | .reg => 48
  | .link => 49
  | .symlink => 50
  | .chrDev => 51
  | .blkDev => 52
  | .dir => 53
  | .fifo => 54
  | .gnuSparse => 83

/-- The error strings `handleIncludedSources` formats. -/
def errMessage : UnpackErr → String
  | .notClean c r => "name not clean: " ++ renderPath c ++ " != " ++ renderPath r
  | .storePfx r => "expected store/ prefix, got " ++ renderPath r
  | .unsupportedType t => "unsupported tar type " ++ toString (typeFlagByte t)

/-- An entry the validator admits: the name is clean up to one trailing
slash, carries the `store/` prefix, and has one of the three admitted
type flags. -/
def admittedType : TypeFlag → Bool
  | .dir => true
  | .reg => true
  | .gnuSparse => true
  | _ => false

/-- The conjunction of the three validation checks of
`handleIncludedSources`, in the order the code performs them. -/
def admitted (e : TarEntry) : Prop :=
  clean e.name = trimSuffixSlash e.name ∧ storePrefixed e.name = true ∧
    admittedType e.typeflag = true

instance (e : TarEntry) : Decidable (admitted e) := by
  unfold admitted; infer_instance

/-- Walk the remaining tar entries (`handleIncludedSources`); for each,
reject unclean names, names outside `store/`, and unsupported types;
otherwise create the directory or file at
`filepath.Join(buildDir, hdr.Name)`.  The accumulator collects the
filesystem objects created so far; on error it is returned unchanged
beside the error, since the failing entry creates nothing. -/
def handleIncludedSources (buildDir : List String) :
    List TarEntry → List Created → List Created × Option UnpackErr
  | [], acc => (acc, none)
  | e :: rest, acc =>
    if clean e.name ≠ trimSuffixSlash e.name then
      (acc, some (.notClean (clean e.name) e.name))
    else if storePrefixed e.name = false then
      (acc, some (.storePfx e.name))
    else
      match e.typeflag with
      | .dir =>
        handleIncludedSources buildDir rest
          (acc ++ [⟨joinPath buildDir e.name, .dirObj, e.mode⟩])
      | .reg =>
        handleIncludedSources buildDir rest
          (acc ++ [⟨joinPath buildDir e.name, .fileObj, e.mode⟩])
      | .gnuSparse =>
        handleIncludedSources buildDir rest
          (acc ++ [⟨joinPath buildDir e.name, .fileObj, e.mode⟩])
      | t => (acc, some (.unsupportedType t))

/-! ## Sparse reconstruction (`copyWithSparse`) -/

/-- A seekable file as the sparse copier sees it: its byte content and
the current write cursor. -/
structure SparseFile where
  data : List Nat
  pos : Nat
deriving DecidableEq

/-- Model of `f.Truncate(n)`: cut or zero-extend the content to length `n`
without moving the cursor. -/
def truncateFile (f : SparseFile) (n : Nat) : SparseFile :=
  ⟨f.data.take n ++ List.replicate (n - f.data.length) 0, f.pos⟩

/-- Model of `dst.Seek(off, SEEK_CUR)`: advance the cursor without writing. -/
def seekCur (f : SparseFile) (off : Nat) : SparseFile :=
  ⟨f.data, f.pos + off⟩

/-- A POSIX positional write: overwrite `buf` at the cursor,
zero-filling any gap past end-of-file, and advance the cursor. -/
def writeAt (f : SparseFile) (buf : List Nat) : SparseFile :=
  ⟨f.data.take f.pos ++ List.replicate (f.pos - f.data.length) 0 ++ buf
      ++ f.data.drop (f.pos + buf.length),
   f.pos + buf.length⟩

/-- Is every byte of the buffer zero (`bufZero`)? -/
def bufZero (buf : List Nat) : Bool := buf.all (fun b => b == 0)

/-- The loop state of `copyWithSparse`: the destination file, the 1 KiB
read buffer (whose bytes beyond the latest read are stale, exactly as
in the Go code, which tests `bufZero` on the whole buffer), and the
`written` counter (which `doHandleSparse` overwrites rather than adds
to, faithfully kept). -/
structure CopyState where
  file : SparseFile
  buf : List Nat
  written : Nat
deriving DecidableEq

/-- One iteration of the `copyWithSparse` loop on a successful read of
`chunk` (`nr = chunk.length` bytes placed at the front of the buffer).
`doHandleSparse` turns an all-zero buffer into a seek; otherwise the
fresh bytes are written. -/
def copyChunk (st : CopyState) (chunk : List Nat) : CopyState :=
  let buf1 := chunk ++ st.buf.drop chunk.length
  if bufZero buf1 then ⟨seekCur st.file chunk.length, buf1, chunk.length⟩
  else ⟨writeAt st.file chunk, buf1, st.written + chunk.length⟩

/-- Model of `copyWithSparse(w, src)` where `src` delivers the byte stream in
the given read chunks: fold the loop from a fresh zeroed 1 KiB buffer. -/
def copyWithSparse (f : SparseFile) (chunks : List (List Nat)) : CopyState :=
  chunks.foldl copyChunk ⟨f, List.replicate 1024 0, 0⟩

/-- Model of `io.Copy(f, src)` over the same chunked stream: plain sequential
writes. -/
def ioCopy (f : SparseFile) (chunks : List (List Nat)) : SparseFile :=
  chunks.foldl writeAt f

/-- A freshly created (`O_CREATE`) empty file. -/
def emptyFile : SparseFile := ⟨[], 0⟩

/-! ## Admission gate (`createBuildDir`) and the build handler -/

/-- The filesystem as the admission gate sees it: which directories
exist, and on which paths directory creation fails for a reason other
than existence (permission denied and the like). -/
structure Fs where
  dirs : List (List String)
  denied : List (List String)
deriving DecidableEq

/-- The two `os.Mkdir` failure conditions the gate distinguishes. -/
inductive FsErr
  | exist
  | permission
deriving DecidableEq

/-- Model of `os.Mkdir`: fails with `ErrExist` iff the directory is already
there; a denied path fails with a generic error; otherwise the
directory is created. -/
def osMkdir (fs : Fs) (p : List String) : Fs × Option FsErr :=
  if p ∈ fs.dirs then (fs, some .exist)
  else if p ∈ fs.denied then (fs, some .permission)
  else ({ fs with dirs := p :: fs.dirs }, none)

/-- Model of `os.MkdirAll`: succeeds when the directory already exists,
otherwise behaves like `os.Mkdir` (parent creation abstracted). -/
def osMkdirAll (fs : Fs) (p : List String) : Fs × Option FsErr :=
  if p ∈ fs.dirs then (fs, none)
  else if p ∈ fs.denied then (fs, some .permission)
  else ({ fs with dirs := p :: fs.dirs }, none)

/-- The errors `createBuildDir` can return: the distinguished
`ErrAlreadyBuilding`, a failure to create the base directory, or a
non-`IsExist` failure of the build-directory `Mkdir`. -/
inductive AdmissionErr
  | alreadyBuilding
  | baseDir (e : FsErr)
  | mkdirFail (e : FsErr)
deriving DecidableEq

/-- The service configuration: the base directory under which the
single `build` directory lives. -/
structure Config where
  buildDirBase : List String
deriving DecidableEq

/-- Model of `createBuildDir`: ensure the base directory, then atomically
`Mkdir` the fixed `build` subdirectory; `IsExist` becomes the
distinguished `ErrAlreadyBuilding`, anything else is generic. -/
def createBuildDir (fs : Fs) (config : Config) :
    Fs × Except AdmissionErr (List String) :=
  match osMkdirAll fs config.buildDirBase with
  | (fs1, some e) => (fs1, .error (.baseDir e))
  | (fs1, none) =>
    match osMkdir fs1 (joinPath config.buildDirBase ["build"]) with
    | (fs2, some FsErr.exist) => (fs2, .error .alreadyBuilding)
    | (fs2, some e) => (fs2, .error (.mkdirFail e))
    | (fs2, none) => (fs2, .ok (joinPath config.buildDirBase ["build"]))

/-- The decoded `control.json`. -/
structure ControlJSON where
  environments : List String
  exports : List String
deriving DecidableEq

/-- The allow-listed request content types. -/
def supportedBuildContentTypes : List String := ["application/x-tar"]

/-- The external build tool's binary name. -/
def osbuildBinary : String := "osbuild"

/-- The argument vector `runOsbuild` builds: `exec.Command` seeds it
with the binary name, then one `--export` pair per export in order,
then `--output-dir`, `--store`, and the manifest path, each produced
with `filepath.Join`. -/
def osbuildCmdArgs (buildDir : List String) (control : ControlJSON) : List String :=
  [osbuildBinary]
    ++ control.exports.flatMap (fun exp => ["--export", exp])
    ++ ["--output-dir", renderPath (joinPath buildDir ["output"])]
    ++ ["--store", renderPath (joinPath buildDir [storeStr])]
    ++ [renderPath (joinPath buildDir ["manifest.json"])]

/-- The `cmd.Env` slice `runOsbuild` builds: appending
`control.Environments` to the initially nil slice yields exactly the
control document's strings. -/
def osbuildCmdEnv (control : ControlJSON) : List String := control.environments

/-- Go `os/exec` environment semantics: a nil/empty `cmd.Env` makes the
child inherit the parent's environment, a non-empty one is passed as
the child's entire environment. -/
def execEffectiveEnv (cmdEnv parentEnv : List String) : List String :=
  if cmdEnv.isEmpty then parentEnv else cmdEnv

/-! ## Output streaming (`runOsbuild` transcript) -/

/-- The two output sinks: the live HTTP response stream and the
`build.log` file. -/
structure Sinks where
  stream : String
  logFile : String
deriving DecidableEq

/-- One `mw.Write` on the `io.MultiWriter(&wf, logf)`: the same bytes
go to the flushing response writer and to the log file. -/
def mwWrite (s : Sinks) (chunk : String) : Sinks :=
  ⟨s.stream ++ chunk, s.logFile ++ chunk⟩

/-- The fixed start banner `runOsbuild` writes first. -/
def bannerLine (buildDir : List String) : String :=
  "starting " ++ renderPath buildDir ++ (" build\n")

/-- The transcript both sinks receive for one build: the banner, then
the subprocess's combined output as it is copied chunk by chunk, then,
when `cmd.Wait` reports a failure, the appended error line. -/
def runOsbuildTranscript (buildDir : List String) (outputChunks : List String)
    (runErr : Option String) : Sinks :=
  let s1 := outputChunks.foldl mwWrite (mwWrite ⟨blank, blank⟩ (bannerLine buildDir))
  match runErr with
  | none => s1
  | some msg => mwWrite s1 ("cannot run osbuild: " ++ msg)

/-- The ordered effects of `runOsbuild` up to waiting on the tool: the
log file is created, the banner goes to both sinks, only then is the
subprocess started, its output forwarded, and its exit awaited. -/
inductive RunEvent
  | createLogFile
  | writeSinks (chunk : String)
  | startProcess
  | waitProcess
deriving DecidableEq

/-- The event trace of `runOsbuild`, in the source's statement order. -/
def runOsbuildEvents (buildDir : List String) (outputChunks : List String) :
    List RunEvent :=
  RunEvent.createLogFile :: RunEvent.writeSinks (bannerLine buildDir)
    :: RunEvent.startProcess :: (outputChunks.map RunEvent.writeSinks)
    ++ [RunEvent.waitProcess]

/-! ## The build handler (`handleBuild`) -/

/-- An HTTP response as the handler determines it: the status code and
the message handed to `http.Error` (which appends a newline on the
wire), or an empty body for the streamed 201. -/
structure HttpResponse where
  status : Nat
  body : String
deriving DecidableEq

/-- Modelled from the spec: the BuildResult marker persisted by
`buildResult.Mark(err)` (`newBuildResult`'s type is not part of the
handler source); it records success when the run error is nil and
failure otherwise. -/
inductive Marker
  | success
  | failure
deriving DecidableEq

/-- Modelled from the spec: `Mark` turns the `runOsbuild` error into
the marker value it persists. -/
def buildResultMark (runErr : Option String) : Marker :=
  if runErr.isNone then .success else .failure

/-- One inbound build request, with the data-dependent outcomes of the
streaming stages abstracted to their results: whether `control.json`
decoded, whether the manifest and store sections unpacked, whether the
tool run (and packaging) failed, and whether persisting the marker
itself fails. -/
structure BuildRequest where
  method : String
  contentType : String
  controlResult : Option ControlJSON
  manifestOk : Bool
  sourcesOk : Bool
  runErr : Option String
  markWriteFail : Bool
deriving DecidableEq

/-- Everything observable of one `handleBuild` invocation: the
response, the BuildResult markers written, the handler's error log
lines, and the filesystem afterwards. -/
structure BuildOutcome where
  resp : HttpResponse
  markers : List Marker
  logLines : List String
  fs : Fs
deriving DecidableEq

/-- Model of `handleBuild`: method gate, content-type gate, `control.json`
decode, admission, manifest, store unpack, then the 201 header, the
tool run, and exactly one `buildResult.Mark` call whose own write
failure is only logged. -/
def handleBuild (req : BuildRequest) (fs : Fs) (config : Config) : BuildOutcome :=
  if req.method ≠ ("POST" : String) then
    ⟨⟨405, "build endpoint only supports POST"⟩, [], [], fs⟩
  else if ¬ req.contentType ∈ supportedBuildContentTypes then
    ⟨⟨415, "Content-Type must be [application/x-tar], got " ++ req.contentType⟩,
      [], [], fs⟩
  else
    match req.controlResult with
    | none => ⟨⟨400, "cannot decode control.json"⟩, [], [], fs⟩
    | some _ =>
      match createBuildDir fs config with
      | (fs1, .error e) =>
        if e = .alreadyBuilding then ⟨⟨409, "build already started"⟩, [], [], fs1⟩
        else ⟨⟨400, "create build dir"⟩, [], [], fs1⟩
      | (fs1, .ok _) =>
        if req.manifestOk = false then ⟨⟨400, "manifest.json"⟩, [], [], fs1⟩
        else if req.sourcesOk = false then ⟨⟨400, "included sources/"⟩, [], [], fs1⟩
        else
          ⟨⟨201, blank⟩, [buildResultMark req.runErr],
            if req.markWriteFail then ["cannot write result file"] else [], fs1⟩

/-- A request that passes every ingestion gate before admission and
unpacks cleanly: the shape both concurrency claims quantify over. -/
def validIngest (req : BuildRequest) : Prop :=
  req.method = ("POST" : String) ∧ req.contentType ∈ supportedBuildContentTypes ∧
    req.controlResult.isSome = true ∧ req.manifestOk = true ∧ req.sourcesOk = true

instance (req : BuildRequest) : Decidable (validIngest req) := by
  unfold validIngest; infer_instance

/-- Serialized build submissions: the statuses handed out when the
requests hit the service one after the other (the admission decision
itself is a single atomic `Mkdir`, so any concurrent execution is one
of these serializations). -/
def buildStatuses (config : Config) : List BuildRequest → Fs → List Nat
  | [], _ => []
  | r :: rs, fs =>
    (handleBuild r fs config).resp.status
      :: buildStatuses config rs (handleBuild r fs config).fs

/-! ## Proof-support definitions -/

deriving instance DecidableEq for Except

/-- The filesystem object one admitted entry makes
(`os.Mkdir` for directories, `os.OpenFile(..., O_CREATE, ...)` for
regular and sparse files). -/
def createdObj (buildDir : List String) (e : TarEntry) : Created :=
  ⟨joinPath buildDir e.name, if e.typeflag = .dir then .dirObj else .fileObj, e.mode⟩

/-- The error a rejected entry produces, by the order of the checks. -/
def rejectErr (e : TarEntry) : UnpackErr :=
  if clean e.name ≠ trimSuffixSlash e.name then .notClean (clean e.name) e.name
  else if storePrefixed e.name = false then .storePfx e.name
  else .unsupportedType e.typeflag

/-- Discriminator for the `expected store/ prefix` error. -/
def isStorePfxErr : Option UnpackErr → Bool
  | some (.storePfx _) => true
  | _ => false

/-- Invariant of the `cleanComps` stack: some normal components on top
of a (front-of-output) run of `..` markers, the latter absent in rooted
paths. -/
def StackOK (rooted : Bool) (acc : List String) : Prop :=
  ∃ ns k, acc = ns ++ List.replicate k dotdot ∧ (∀ c ∈ ns, NormalComp c) ∧
    (rooted = true → k = 0)

/-! ## Lemmas about the path model -/

theorem cleanComps_all_normal (r : Bool) (cs : List String) :
    ∀ acc : List String, (∀ c ∈ cs, NormalComp c) →
      cleanComps r acc cs = acc.reverse ++ cs := by
  induction cs with
  | nil => intro acc _; simp [cleanComps]
  | cons c cs ih =>
    intro acc h
    obtain ⟨h1, h2, h3⟩ := h c (by simp)
    have hstep : cleanComps r acc (c :: cs) = cleanComps r (c :: acc) cs := by
      simp [cleanComps, h1, h2, h3]
    rw [hstep, ih (c :: acc) (fun x hx => h x (by simp [hx]))]
    simp

theorem cleanComps_snoc_blank (r : Bool) (cs : List String) :
    ∀ acc : List String, cleanComps r acc (cs ++ [blank]) = cleanComps r acc cs := by
  induction cs with
  | nil => intro acc; simp [cleanComps]
  | cons c cs ih =>
    intro acc
    by_cases h1 : c = blank ∨ c = dot
    · simp only [List.cons_append, cleanComps, if_pos h1]
      exact ih acc
    · by_cases h2 : c = dotdot
      · cases acc with
        | nil =>
          cases r <;>
            simp only [List.cons_append, cleanComps, if_neg h1, if_pos h2] <;>
            exact ih _
        | cons t ts =>
          by_cases h3 : t = dotdot
          · simp only [List.cons_append, cleanComps, if_neg h1, if_pos h2, if_pos h3]
            exact ih _
          · simp only [List.cons_append, cleanComps, if_neg h1, if_pos h2, if_neg h3]
            exact ih _
      · simp only [List.cons_append, cleanComps, if_neg h1, if_neg h2]
        exact ih _

theorem cleanComps_stack (r : Bool) (cs : List String) :
    ∀ acc : List String, StackOK r acc →
      ∃ acc2, cleanComps r acc cs = acc2.reverse ∧ StackOK r acc2 := by
  induction cs with
  | nil => intro acc h; exact ⟨acc, by simp [cleanComps], h⟩
  | cons c cs ih =>
    intro acc h
    by_cases h1 : c = blank ∨ c = dot
    · simp only [cleanComps, if_pos h1]
      exact ih acc h
    · by_cases h2 : c = dotdot
      · cases acc with
        | nil =>
          cases r with
          | false =>
            simp only [cleanComps, if_neg h1, if_pos h2, Bool.false_eq_true, reduceIte]
            exact ih [dotdot] ⟨[], 1, by simp, by simp, by intro hcon; cases hcon⟩
          | true =>
            simp only [cleanComps, if_neg h1, if_pos h2, reduceIte]
            exact ih [] ⟨[], 0, by simp, by simp, fun _ => rfl⟩
        | cons t ts =>
          obtain ⟨ns, k, heq, hns, hk⟩ := h
          by_cases h3 : t = dotdot
          · simp only [cleanComps, if_neg h1, if_pos h2, if_pos h3]
            have hns0 : ns = [] := by
              cases ns with
              | nil => rfl
              | cons n ns' =>
                exfalso
                have : t = n := by simpa using congrArg (fun l => l.head?) heq
                exact (hns n (by simp)).2.2 (this ▸ h3)
            have hk1 : t :: ts = List.replicate k dotdot := by simpa [hns0] using heq
            have hrf : r = false := by
              cases hr : r
              · rfl
              · exfalso
                have : k = 0 := hk hr
                rw [this] at hk1; simp at hk1
            refine ih (dotdot :: t :: ts) ⟨[], k + 1, ?_, by simp, ?_⟩
            · rw [hk1]; simp [List.replicate_succ]
            · intro hcon; rw [hrf] at hcon; cases hcon
          · simp only [cleanComps, if_neg h1, if_pos h2, if_neg h3]
            cases ns with
            | nil =>
              exfalso
              cases hk0 : k with
              | zero => rw [hk0] at heq; simp at heq
              | succ k' =>
                rw [hk0] at heq
                have : t = dotdot := by
                  simpa [List.replicate_succ] using congrArg (fun l => l.head?) heq
                exact h3 this
            | cons n ns' =>
              have ht : t = n := by simpa using congrArg (fun l => l.head?) heq
              have hts : ts = ns' ++ List.replicate k dotdot := by
                simpa using congrArg List.tail heq
              exact ih ts ⟨ns', k, hts, fun x hx => hns x (by simp [hx]), hk⟩
      · simp only [cleanComps, if_neg h1, if_neg h2]
        obtain ⟨ns, k, heq, hns, hk⟩ := h
        have hc : NormalComp c := by
          refine ⟨?_, ?_, h2⟩ <;> intro hcon <;> exact h1 (by simp [hcon])
        exact ih (c :: acc) ⟨c :: ns, k, by simp [heq], by
          intro x hx
          rcases List.mem_cons.mp hx with hx | hx
          · exact hx ▸ hc
          · exact hns x hx, hk⟩

theorem isRooted_eq_false (cs : List String) (h : ∀ c ∈ cs, NormalComp c) :
    isRooted cs = false := by
  match cs with
  | [] => rfl
  | [c] => rfl
  | c :: c' :: cs' =>
    have h1 : c ≠ blank := (h c (by simp)).1
    simp [isRooted, h1]

theorem clean_fixed (cs : List String) (h1 : cs ≠ []) (h2 : ∀ c ∈ cs, NormalComp c) :
    clean cs = cs := by
  rw [clean, isRooted_eq_false cs h2]
  simp only [Bool.false_eq_true, reduceIte]
  rw [cleanComps_all_normal false cs [] h2]
  simp only [List.reverse_nil, List.nil_append]

theorem clean_snoc_blank (cs : List String) (h1 : cs ≠ [])
    (h2 : ∀ c ∈ cs, NormalComp c) : clean (cs ++ [blank]) = cs := by
  have hroot : isRooted (cs ++ [blank]) = false := by
    match cs, h1 with
    | c :: cs', _ =>
      have hc : c ≠ blank := (h2 c (by simp)).1
      cases cs' <;> simp [isRooted, hc]
  rw [clean, hroot]
  simp only [Bool.false_eq_true, reduceIte]
  rw [cleanComps_snoc_blank false cs [], cleanComps_all_normal false cs [] h2]
  simp only [List.reverse_nil, List.nil_append]

theorem clean_store_normal (cs rest : List String)
    (h : clean cs = storeStr :: rest) : ∀ c ∈ storeStr :: rest, NormalComp c := by
  obtain ⟨acc2, hout, ns, k, heq, hns, -⟩ :=
    cleanComps_stack false cs [] ⟨[], 0, by simp, by simp, fun _ => rfl⟩
  by_cases hroot : isRooted cs = true
  · exfalso
    rw [clean, if_pos hroot] at h
    cases hcc : cleanComps true [] cs with
    | nil =>
      rw [hcc] at h
      have h2 : ([blank, blank] : List String) = storeStr :: rest := h
      simp [blank, storeStr] at h2
    | cons o os =>
      rw [hcc] at h
      have h2 : blank :: o :: os = storeStr :: rest := h
      have : blank = storeStr := by simpa using congrArg (fun l => l.head?) h2
      exact absurd this (by decide)
  · rw [clean, if_neg hroot] at h
    cases hcc : cleanComps false [] cs with
    | nil =>
      exfalso
      rw [hcc] at h
      have h2 : ([dot] : List String) = storeStr :: rest := h
      simp [dot, storeStr] at h2
    | cons o os =>
      rw [hcc] at h
      have h2 : o :: os = storeStr :: rest := h
      rw [hcc] at hout
      subst heq
      have hall : storeStr :: rest = List.replicate k dotdot ++ ns.reverse := by
        rw [← h2, hout, List.reverse_append, List.reverse_replicate]
      cases k with
      | zero =>
        simp only [List.replicate, List.nil_append] at hall
        intro c hc
        rw [hall] at hc
        exact hns c (List.mem_reverse.mp hc)
      | succ k' =>
        exfalso
        have hcon : storeStr = dotdot := by
          simpa [List.replicate_succ] using congrArg (fun l => l.head?) hall
        exact absurd hcon (by decide)

theorem trim_cases (cs : List String) :
    cs = trimSuffixSlash cs ∨ cs = trimSuffixSlash cs ++ [blank] := by
  rw [trimSuffixSlash]
  by_cases h : cs.getLast? = some blank ∧ 2 ≤ cs.length
  · right
    rw [if_pos h]
    have hne : cs ≠ [] := by
      intro h0; rw [h0] at h; simp at h
    have hlast : cs.getLast hne = blank := by
      have := List.getLast?_eq_getLast cs hne
      rw [this] at h
      exact (Option.some_injective _ h.1)
    conv_lhs => rw [← List.dropLast_append_getLast hne]
    rw [hlast]
  · left; rw [if_neg h]

theorem storePrefixed_shape (cs : List String) (h : storePrefixed cs = true) :
    ∃ x rest, cs = storeStr :: x :: rest := by
  match cs, h with
  | c :: x :: rest, h =>
    have : c = storeStr := by simpa [storePrefixed] using h
    exact ⟨x, rest, by rw [this]⟩

theorem trim_store_head (cs : List String) (h : storePrefixed cs = true) :
    ∃ tail, trimSuffixSlash cs = storeStr :: tail := by
  obtain ⟨x, rest, rfl⟩ := storePrefixed_shape cs h
  rw [trimSuffixSlash]
  by_cases hc : (storeStr :: x :: rest).getLast? = some blank ∧
      2 ≤ (storeStr :: x :: rest).length
  · rw [if_pos hc]
    exact ⟨(x :: rest).dropLast, by simp [List.dropLast]⟩
  · rw [if_neg hc]
    exact ⟨x :: rest, rfl⟩

theorem admitted_shape (e : TarEntry) (h : admitted e) :
    ∃ tail, trimSuffixSlash e.name = storeStr :: tail ∧
      (∀ c ∈ storeStr :: tail, NormalComp c) ∧
      (e.name = storeStr :: tail ∨ e.name = (storeStr :: tail) ++ [blank]) := by
  obtain ⟨h1, h2, -⟩ := h
  obtain ⟨tail, htail⟩ := trim_store_head e.name h2
  refine ⟨tail, htail, ?_, ?_⟩
  · exact clean_store_normal e.name tail (htail ▸ h1)
  · rcases trim_cases e.name with hc | hc
    · left; rw [hc, htail]
    · right; rw [hc, htail]

theorem join_of_admitted (bd : List String) (e : TarEntry)
    (hbd1 : bd ≠ []) (hbd2 : ∀ c ∈ bd, NormalComp c) (h : admitted e) :
    ∃ tail, trimSuffixSlash e.name = storeStr :: tail ∧
      joinPath bd e.name = bd ++ storeStr :: tail ∧
      (∀ c ∈ storeStr :: tail, NormalComp c) := by
  obtain ⟨tail, htail, hnorm, hcase⟩ := admitted_shape e h
  refine ⟨tail, htail, ?_, hnorm⟩
  have hall : ∀ c ∈ bd ++ storeStr :: tail, NormalComp c := by
    intro c hc
    rcases List.mem_append.mp hc with hc | hc
    · exact hbd2 c hc
    · exact hnorm c hc
  have hne : bd ++ storeStr :: tail ≠ [] := by simp [hbd1]
  rcases hcase with hc | hc
  · rw [joinPath, hc]
    exact clean_fixed (bd ++ storeStr :: tail) hne hall
  · rw [joinPath, hc, ← List.append_assoc]
    exact clean_snoc_blank (bd ++ storeStr :: tail) hne hall

theorem join_normal_snoc (bd : List String) (c : String)
    (hbd1 : bd ≠ []) (hbd2 : ∀ x ∈ bd, NormalComp x) (hc : NormalComp c) :
    joinPath bd [c] = bd ++ [c] := by
  rw [joinPath]
  refine clean_fixed (bd ++ [c]) (by simp) ?_
  intro x hx
  rcases List.mem_append.mp hx with hx | hx
  · exact hbd2 x hx
  · rw [List.mem_singleton.mp hx]; exact hc

theorem join_snoc_ne (bd : List String) (c : String)
    (hbd1 : bd ≠ []) (hbd2 : ∀ x ∈ bd, NormalComp x) (hc : NormalComp c) :
    joinPath bd [c] ≠ bd := by
  rw [join_normal_snoc bd c hbd1 hbd2 hc]
  intro hcon
  have := congrArg List.length hcon
  simp at this

theorem renderPath_snoc (xs : List String) (y : String) (h : xs ≠ []) :
    renderPath (xs ++ [y]) = renderPath xs ++ "/" ++ y := by
  induction xs with
  | nil => exact absurd rfl h
  | cons x xs ih =>
    cases xs with
    | nil => simp [renderPath]
    | cons x' xs' =>
      have hih := ih (by simp)
      simp only [List.cons_append, renderPath, List.append_eq] at hih ⊢
      rw [hih]
      simp [String.append_assoc]

/-! ## Lemmas about the archive unpacker -/

theorem unpack_step (bd : List String) (p : TarEntry) (l : List TarEntry)
    (acc : List Created) (hp : admitted p) :
    handleIncludedSources bd (p :: l) acc
      = handleIncludedSources bd l (acc ++ [createdObj bd p]) := by
  obtain ⟨h1, h2, h3⟩ := hp
  rcases p with ⟨nm, tf, md⟩
  simp only [TarEntry.name] at h1 h2
  simp only [TarEntry.typeflag] at h3
  cases tf <;>
    first
      | exact absurd h3 (by decide)
      | simp [handleIncludedSources, createdObj, h1, h2]

theorem unpack_reject (bd : List String) (e : TarEntry) (l : List TarEntry)
    (acc : List Created) (he : ¬ admitted e) :
    handleIncludedSources bd (e :: l) acc = (acc, some (rejectErr e)) := by
  rcases e with ⟨nm, tf, md⟩
  by_cases h1 : clean nm = trimSuffixSlash nm
  · by_cases h2 : storePrefixed nm = true
    · have h3 : admittedType tf = false := by
        rcases Bool.eq_false_or_eq_true (admittedType tf) with h | h
        · exact absurd ⟨h1, h2, h⟩ he
        · exact h
      cases tf <;>
        first
          | exact absurd h3 (by decide)
          | simp [handleIncludedSources, rejectErr, h1, h2]
    · have h2f : storePrefixed nm = false := by
        rcases Bool.eq_false_or_eq_true (storePrefixed nm) with h | h
        · exact absurd h h2
        · exact h
      simp [handleIncludedSources, rejectErr, h1, h2f]
  · simp [handleIncludedSources, rejectErr, h1]

theorem unpack_sound (bd : List String) (entries : List TarEntry) :
    ∀ acc : List Created,
      (∀ cr ∈ (handleIncludedSources bd entries acc).1,
          cr ∈ acc ∨ ∃ e, e ∈ entries ∧ admitted e ∧ cr.path = joinPath bd e.name)
      ∧ ((handleIncludedSources bd entries acc).2 = none ↔
          ∀ e ∈ entries, admitted e) := by
  induction entries with
  | nil =>
    intro acc
    refine ⟨?_, ?_⟩
    · intro cr hcr
      left
      simpa [handleIncludedSources] using hcr
    · simp [handleIncludedSources]
  | cons e rest ih =>
    intro acc
    by_cases he : admitted e
    · rw [unpack_step bd e rest acc he]
      obtain ⟨ih1, ih2⟩ := ih (acc ++ [createdObj bd e])
      refine ⟨?_, ?_⟩
      · intro cr hcr
        rcases ih1 cr hcr with hin | ⟨e', he', ha', hp'⟩
        · rcases List.mem_append.mp hin with h | h
          · exact Or.inl h
          · right
            refine ⟨e, by simp, he, ?_⟩
            rw [List.mem_singleton.mp h]
            rfl
        · exact Or.inr ⟨e', by simp [he'], ha', hp'⟩
      · rw [ih2]
        constructor
        · intro hall e' he'
          rcases List.mem_cons.mp he' with h | h
          · exact h ▸ he
          · exact hall e' h
        · intro hall e' he'
          exact hall e' (by simp [he'])
    · rw [unpack_reject bd e rest acc he]
      refine ⟨fun cr hcr => Or.inl hcr, ?_⟩
      constructor
      · intro hcon; cases hcon
      · intro hall
        exact absurd (hall e (by simp)) he

theorem substrIn_of_prefix (p s : String) (h : p.data <+: s.data) :
    substrIn p s = true := by
  rw [substrIn]
  apply List.any_eq_true.mpr
  refine ⟨0, List.mem_range.mpr (by omega), ?_⟩
  simpa [List.isPrefixOf_iff_prefix] using h

/-- Claim C3: a filesystem object is created by `handleIncludedSources`
only for an entry whose name is clean (canonicalization changes nothing
beyond a trailing separator), begins with `store/`, and has an admitted
type; every created object's path is the build directory followed by
`store` and further normal components, so nothing is written outside the
store namespace; and a run is error-free exactly when every entry is
admitted, a violating entry causing a hard failure with nothing created
for it. -/
theorem c3_validated_store_writes (bd : List String) (entries : List TarEntry)
    (hbd1 : bd ≠ []) (hbd2 : ∀ c ∈ bd, NormalComp c) :
    (∀ cr ∈ (handleIncludedSources bd entries []).1,
        ∃ e, e ∈ entries ∧ admitted e ∧ cr.path = joinPath bd e.name ∧
          ∃ tail, cr.path = bd ++ storeStr :: tail ∧
            ∀ c ∈ storeStr :: tail, NormalComp c)
    ∧ ((handleIncludedSources bd entries []).2 = none ↔
        ∀ e ∈ entries, admitted e) := by
  obtain ⟨h1, h2⟩ := unpack_sound bd entries []
  refine ⟨?_, h2⟩
  intro cr hcr
  rcases h1 cr hcr with hin | ⟨e, he, ha, hp⟩
  · cases hin
  · obtain ⟨tail, htail, hjoin, hnorm⟩ := join_of_admitted bd e hbd1 hbd2 ha
    exact ⟨e, he, ha, hp, tail, by rw [hp, hjoin], hnorm⟩

theorem c3_validated_store_writes_witness :
    (handleIncludedSources ["b"]
        [⟨["store", ""], TypeFlag.dir, 493⟩, ⟨["store", "x"], TypeFlag.reg, 420⟩]
        []).2 = none :=
  (c3_validated_store_writes ["b"]
      [⟨["store", ""], TypeFlag.dir, 493⟩, ⟨["store", "x"], TypeFlag.reg, 420⟩]
      (by decide) (by decide)).2.mpr (by decide)

/-- Claim C4 counterexample: the entry named `store/../../etc/passwd` has
a canonicalized path (`../etc/passwd`) that does not begin with `store/`,
yet `handleIncludedSources` fails with the `name not clean` error, not
with an error containing `expected store/ prefix`. -/
theorem c4_counterexample :
    storePrefixed (clean ["store", "..", "..", "etc", "passwd"]) = false
    ∧ handleIncludedSources ["b"]
        [⟨["store", "..", "..", "etc", "passwd"], TypeFlag.reg, 420⟩] []
      = ([], some (UnpackErr.notClean ["..", "etc", "passwd"]
          ["store", "..", "..", "etc", "passwd"]))
    ∧ isStorePfxErr (handleIncludedSources ["b"]
        [⟨["store", "..", "..", "etc", "passwd"], TypeFlag.reg, 420⟩] []).2 = false
    ∧ substrIn ("expected store/ prefix")
        (errMessage (UnpackErr.notClean ["..", "etc", "passwd"]
          ["store", "..", "..", "etc", "passwd"])) = false := by
  decide

/-- Claim C4 (amended): for every tar entry in the store section whose
raw name does not begin with `store/` but whose name is clean (unclean
names are caught first, by the `name not clean` error), unpacking fails
with the `expected store/ prefix` error and writes nothing further to
disk for that or any later entry: the objects created are exactly those
of the preceding admitted entries. -/
theorem c4_store_prefix_error (bd : List String) (pre post : List TarEntry)
    (e : TarEntry) (acc : List Created)
    (hpre : ∀ p ∈ pre, admitted p)
    (hclean : clean e.name = trimSuffixSlash e.name)
    (hpfx : storePrefixed e.name = false) :
    handleIncludedSources bd (pre ++ e :: post) acc
      = ((handleIncludedSources bd pre acc).1, some (UnpackErr.storePfx e.name))
    ∧ substrIn ("expected store/ prefix")
        (errMessage (UnpackErr.storePfx e.name)) = true := by
  constructor
  · have main : ∀ (pre2 : List TarEntry) (acc2 : List Created),
        (∀ p ∈ pre2, admitted p) →
        handleIncludedSources bd (pre2 ++ e :: post) acc2
          = ((handleIncludedSources bd pre2 acc2).1,
             some (UnpackErr.storePfx e.name)) := by
      intro pre2
      induction pre2 with
      | nil =>
        intro acc2 _
        rcases e with ⟨nm, tf, md⟩
        simp only [TarEntry.name] at hclean hpfx
        simp [handleIncludedSources, hclean, hpfx]
      | cons p pre2 ih =>
        intro acc2 hpre2
        have hp := hpre2 p (by simp)
        rw [List.cons_append, unpack_step bd p _ acc2 hp,
          unpack_step bd p pre2 acc2 hp]
        exact ih (acc2 ++ [createdObj bd p]) (fun q hq => hpre2 q (by simp [hq]))
    exact main pre acc hpre
  · have h1 : ("expected store/ prefix").data <+:
        ("expected store/ prefix, got ").data := by decide
    apply substrIn_of_prefix
    simp only [errMessage, String.data_append]
    exact h1.trans (List.prefix_append _ _)

theorem c4_store_prefix_error_witness :
    handleIncludedSources ["b"] [⟨["not-store"], TypeFlag.reg, 420⟩] []
      = ([], some (UnpackErr.storePfx ["not-store"])) := by
  have h := (c4_store_prefix_error ["b"] [] []
      ⟨["not-store"], TypeFlag.reg, 420⟩ [] (by simp) (by decide) (by decide)).1
  simpa [handleIncludedSources] using h

/-! ## Lemmas about admission and the build handler -/

theorem handleBuild_valid_eq (req : BuildRequest) (fs : Fs) (config : Config)
    (hval : validIngest req) :
    handleBuild req fs config
      = match createBuildDir fs config with
        | (fs1, .error e) =>
          if e = .alreadyBuilding then ⟨⟨409, "build already started"⟩, [], [], fs1⟩
          else ⟨⟨400, "create build dir"⟩, [], [], fs1⟩
        | (fs1, .ok _) =>
          ⟨⟨201, blank⟩, [buildResultMark req.runErr],
            if req.markWriteFail then ["cannot write result file"] else [], fs1⟩ := by
  obtain ⟨h1, h2, h3, h4, h5⟩ := hval
  obtain ⟨c, hc⟩ := Option.isSome_iff_exists.mp h3
  rw [handleBuild]
  rw [if_neg (by simp [h1])]
  rw [if_neg (by simp [h2])]
  rw [hc]
  rcases hcbd : createBuildDir fs config with ⟨fs1, r⟩
  cases r with
  | error e => rfl
  | ok d => simp [h4, h5]

/-- Claim C1: `createBuildDir` returns the distinguished
`ErrAlreadyBuilding` exactly when the build directory already exists
(any other directory-creation failure yields a different, generic
error), and the handler maps `ErrAlreadyBuilding`, and only it, to the
409 conflict response with the message `build already started`. -/
theorem c1_conflict_distinguished (req : BuildRequest) (fs : Fs)
    (config : Config) (hval : validIngest req)
    (hbase1 : config.buildDirBase ≠ [])
    (hbase2 : ∀ c ∈ config.buildDirBase, NormalComp c)
    (hparent : joinPath config.buildDirBase ["build"] ∈ fs.dirs →
      config.buildDirBase ∈ fs.dirs) :
    ((createBuildDir fs config).2 = .error .alreadyBuilding
      ↔ joinPath config.buildDirBase ["build"] ∈ fs.dirs)
    ∧ ((handleBuild req fs config).resp = ⟨409, "build already started"⟩
      ↔ (createBuildDir fs config).2 = .error .alreadyBuilding) := by
  have hne := join_snoc_ne config.buildDirBase "build" hbase1 hbase2 (by decide)
  constructor
  · by_cases hbase : config.buildDirBase ∈ fs.dirs
    · by_cases hex : joinPath config.buildDirBase ["build"] ∈ fs.dirs
      · simp [createBuildDir, osMkdirAll, osMkdir, hbase, hex]
      · by_cases hden : joinPath config.buildDirBase ["build"] ∈ fs.denied
        · simp [createBuildDir, osMkdirAll, osMkdir, hbase, hex, hden]
        · simp [createBuildDir, osMkdirAll, osMkdir, hbase, hex, hden]
    · have hex : joinPath config.buildDirBase ["build"] ∉ fs.dirs :=
        fun h => hbase (hparent h)
      by_cases hdenb : config.buildDirBase ∈ fs.denied
      · simp [createBuildDir, osMkdirAll, hbase, hdenb, hex]
      · have hex1 : joinPath config.buildDirBase ["build"]
            ∉ config.buildDirBase :: fs.dirs := by
          intro h
          rcases List.mem_cons.mp h with h | h
          · exact hne h
          · exact hex h
        by_cases hden : joinPath config.buildDirBase ["build"] ∈ fs.denied
        · simp [createBuildDir, osMkdirAll, osMkdir, hbase, hdenb, hex, hex1, hden]
        · simp [createBuildDir, osMkdirAll, osMkdir, hbase, hdenb, hex, hex1, hden]
  · rw [handleBuild_valid_eq req fs config hval]
    rcases hcbd : createBuildDir fs config with ⟨fs1, r⟩
    cases r with
    | error e =>
      by_cases he : e = .alreadyBuilding
      · subst he; simp
      · simp [he]
    | ok d => simp

theorem c1_conflict_distinguished_witness :
    (createBuildDir ⟨[["b"], ["b", "build"]], []⟩ ⟨["b"]⟩).2
        = Except.error AdmissionErr.alreadyBuilding
    ∧ (handleBuild ⟨"POST", "application/x-tar", some ⟨[], []⟩, true, true,
          none, false⟩ ⟨[["b"], ["b", "build"]], []⟩ ⟨["b"]⟩).resp
        = ⟨409, "build already started"⟩ := by
  have h := c1_conflict_distinguished
      ⟨"POST", "application/x-tar", some ⟨[], []⟩, true, true, none, false⟩
      ⟨[["b"], ["b", "build"]], []⟩ ⟨["b"]⟩ (by decide) (by decide) (by decide)
      (fun _ => by decide)
  exact ⟨h.1.mpr (by decide), h.2.mpr (h.1.mpr (by decide))⟩

theorem handleBuild_conflict_state (req : BuildRequest) (fs : Fs)
    (config : Config) (hval : validIngest req)
    (hbase : config.buildDirBase ∈ fs.dirs)
    (hbd : joinPath config.buildDirBase ["build"] ∈ fs.dirs) :
    handleBuild req fs config = ⟨⟨409, "build already started"⟩, [], [], fs⟩ := by
  rw [handleBuild_valid_eq req fs config hval]
  have hcbd : createBuildDir fs config = (fs, .error .alreadyBuilding) := by
    simp [createBuildDir, osMkdirAll, osMkdir, hbase, hbd]
  rw [hcbd]
  simp

theorem handleBuild_first_success (req : BuildRequest) (fs : Fs)
    (config : Config) (hval : validIngest req)
    (hbase1 : config.buildDirBase ≠ [])
    (hbase2 : ∀ c ∈ config.buildDirBase, NormalComp c)
    (hfresh : joinPath config.buildDirBase ["build"] ∉ fs.dirs)
    (hden1 : config.buildDirBase ∉ fs.denied)
    (hden2 : joinPath config.buildDirBase ["build"] ∉ fs.denied) :
    (handleBuild req fs config).resp.status = 201
    ∧ config.buildDirBase ∈ (handleBuild req fs config).fs.dirs
    ∧ joinPath config.buildDirBase ["build"] ∈ (handleBuild req fs config).fs.dirs := by
  rw [handleBuild_valid_eq req fs config hval]
  by_cases hbase : config.buildDirBase ∈ fs.dirs
  · have hcbd : createBuildDir fs config
        = ({ fs with dirs := joinPath config.buildDirBase ["build"] :: fs.dirs },
           .ok (joinPath config.buildDirBase ["build"])) := by
      simp [createBuildDir, osMkdirAll, osMkdir, hbase, hfresh, hden2]
    rw [hcbd]
    simp [hbase]
  · have hne := join_snoc_ne config.buildDirBase "build" hbase1 hbase2 (by decide)
    have hnotin : joinPath config.buildDirBase ["build"]
        ∉ config.buildDirBase :: fs.dirs := by
      intro h
      rcases List.mem_cons.mp h with h | h
      · exact hne h
      · exact hfresh h
    have hcbd : createBuildDir fs config
        = ({ fs with dirs := joinPath config.buildDirBase ["build"]
              :: config.buildDirBase :: fs.dirs },
           .ok (joinPath config.buildDirBase ["build"])) := by
      simp [createBuildDir, osMkdirAll, osMkdir, hbase, hden1, hnotin, hden2]
    rw [hcbd]
    simp

theorem buildStatuses_conflicts (config : Config) (reqs : List BuildRequest) :
    ∀ fs : Fs, (∀ r ∈ reqs, validIngest r) →
      config.buildDirBase ∈ fs.dirs →
      joinPath config.buildDirBase ["build"] ∈ fs.dirs →
      buildStatuses config reqs fs = List.replicate reqs.length 409 := by
  induction reqs with
  | nil => intro fs _ _ _; rfl
  | cons r rs ih =>
    intro fs hval hbase hbd
    rw [buildStatuses,
      handleBuild_conflict_state r fs config (hval r (by simp)) hbase hbd]
    rw [ih fs (fun q hq => hval q (by simp [hq])) hbase hbd]
    simp [List.replicate_succ]

/-- Claim C2: for submissions hitting a fresh service instance (no build
directory yet), the first admitted request gets the 201 outcome and
every later one gets the 409 conflict, whatever the submission order of
the otherwise-identical valid requests; in particular, of two
submissions exactly one is created and one conflicted, and at most one
build is ever admitted. -/
theorem c2_exactly_one_created (config : Config) (fs : Fs)
    (r : BuildRequest) (rest : List BuildRequest)
    (hr : validIngest r) (hrest : ∀ q ∈ rest, validIngest q)
    (hbase1 : config.buildDirBase ≠ [])
    (hbase2 : ∀ c ∈ config.buildDirBase, NormalComp c)
    (hfresh : joinPath config.buildDirBase ["build"] ∉ fs.dirs)
    (hden1 : config.buildDirBase ∉ fs.denied)
    (hden2 : joinPath config.buildDirBase ["build"] ∉ fs.denied) :
    buildStatuses config (r :: rest) fs = 201 :: List.replicate rest.length 409 := by
  obtain ⟨hst, hbase, hbd⟩ :=
    handleBuild_first_success r fs config hr hbase1 hbase2 hfresh hden1 hden2
  rw [buildStatuses, hst,
    buildStatuses_conflicts config rest _ hrest hbase hbd]

theorem c2_exactly_one_created_witness :
    buildStatuses ⟨["b"]⟩
      [⟨"POST", "application/x-tar", some ⟨[], []⟩, true, true, none, false⟩,
       ⟨"POST", "application/x-tar", some ⟨[], []⟩, true, true, none, false⟩]
      ⟨[], []⟩ = [201, 409] := by
  have h := c2_exactly_one_created ⟨["b"]⟩ ⟨[], []⟩
      ⟨"POST", "application/x-tar", some ⟨[], []⟩, true, true, none, false⟩
      [⟨"POST", "application/x-tar", some ⟨[], []⟩, true, true, none, false⟩]
      (by decide) (by decide) (by decide) (by decide) (by decide) (by decide)
      (by decide)
  simpa using h

/-- Claim C9 counterexample: a build attempt that fails at admission (the
build directory already exists) ends with the 409 response and writes no
BuildResult marker at all, refuting that exactly one marker is written
per build attempt with failure marked on any upstream failure. -/
theorem c9_counterexample :
    (handleBuild ⟨"POST", "application/x-tar", some ⟨[], []⟩, true, true, none,
        false⟩ ⟨[["b"], ["b", "build"]], []⟩ ⟨["b"]⟩).resp.status = 409
    ∧ (handleBuild ⟨"POST", "application/x-tar", some ⟨[], []⟩, true, true, none,
        false⟩ ⟨[["b"], ["b", "build"]], []⟩ ⟨["b"]⟩).markers = [] := by
  decide

/-- Claim C9 (amended): a BuildResult marker is written exactly by the
attempts that reach the run phase (those that answer 201): exactly one
marker then, marking success precisely when the subprocess run and
packaging succeeded; attempts failing earlier (ingestion or admission)
write no marker; and a failure to write the marker itself is only
logged, changing neither the response nor the marker. -/
theorem c9_marker_exactly_on_run (req : BuildRequest) (fs : Fs)
    (config : Config) :
    ((handleBuild req fs config).resp.status = 201 →
      (handleBuild req fs config).markers = [buildResultMark req.runErr])
    ∧ ((handleBuild req fs config).resp.status ≠ 201 →
      (handleBuild req fs config).markers = [])
    ∧ (handleBuild { req with markWriteFail := true } fs config).resp
        = (handleBuild req fs config).resp
    ∧ (handleBuild { req with markWriteFail := true } fs config).markers
        = (handleBuild req fs config).markers := by
  rcases req with ⟨m, ct, co, man, src, re, mw⟩
  by_cases h1 : m = ("POST" : String)
  · by_cases h2 : ct ∈ supportedBuildContentTypes
    · cases co with
      | none => simp [handleBuild, h1, h2]
      | some c =>
        rcases hcbd : createBuildDir fs config with ⟨fs1, r⟩
        cases r with
        | error e =>
          by_cases he : e = .alreadyBuilding
          · simp [handleBuild, h1, h2, hcbd, he]
          · simp [handleBuild, h1, h2, hcbd, he]
        | ok d =>
          cases man
          · simp [handleBuild, h1, h2, hcbd]
          · cases src
            · simp [handleBuild, h1, h2, hcbd]
            · simp [handleBuild, h1, h2, hcbd]
    · simp [handleBuild, h1, h2]
  · simp [handleBuild, h1]

theorem c9_marker_exactly_on_run_witness :
    (handleBuild ⟨"POST", "application/x-tar", some ⟨[], []⟩, true, true, none,
        false⟩ ⟨[], []⟩ ⟨["b"]⟩).markers = [buildResultMark none] :=
  (c9_marker_exactly_on_run
      ⟨"POST", "application/x-tar", some ⟨[], []⟩, true, true, none, false⟩
      ⟨[], []⟩ ⟨["b"]⟩).1 (by decide)

/-- Claim C5: for every decoded BuildControl, the invocation is the
binary name followed by one `--export <name>` pair per export in their
original order, then `--output-dir <buildDir>/output`, then
`--store <buildDir>/store`, then `<buildDir>/manifest.json` as the final
positional argument; the environment slice is exactly the strings of
`environments`, verbatim. -/
theorem c5_invocation (bd : List String) (control : ControlJSON)
    (h1 : bd ≠ []) (h2 : ∀ c ∈ bd, NormalComp c) :
    osbuildCmdArgs bd control
      = osbuildBinary :: (control.exports.flatMap (fun exp => ["--export", exp]))
        ++ ["--output-dir", renderPath bd ++ ("/output"),
            "--store", renderPath bd ++ ("/store"),
            renderPath bd ++ ("/manifest.json")]
    ∧ osbuildCmdEnv control = control.environments := by
  refine ⟨?_, rfl⟩
  have houtput : joinPath bd ["output"] = bd ++ ["output"] :=
    join_normal_snoc bd "output" h1 h2 (by decide)
  have hstore : joinPath bd [storeStr] = bd ++ [storeStr] :=
    join_normal_snoc bd storeStr h1 h2 (by decide)
  have hman : joinPath bd ["manifest.json"] = bd ++ ["manifest.json"] :=
    join_normal_snoc bd "manifest.json" h1 h2 (by decide)
  rw [osbuildCmdArgs, houtput, hstore, hman,
    renderPath_snoc bd "output" h1, renderPath_snoc bd storeStr h1,
    renderPath_snoc bd "manifest.json" h1]
  simp [String.append_assoc, storeStr]

theorem c5_invocation_witness :
    osbuildCmdArgs ["b", "d"] ⟨["MY=env"], ["tree"]⟩
      = ["osbuild", "--export", "tree", "--output-dir", "b/d/output",
         "--store", "b/d/store", "b/d/manifest.json"] := by
  rw [(c5_invocation ["b", "d"] ⟨["MY=env"], ["tree"]⟩ (by decide) (by decide)).1]
  decide

/-- Claim C10: when `control.json` carries a non-empty `environments`
list, the subprocess is started with exactly those `KEY=VALUE` strings,
in order, as its entire environment; the service process's own
environment is not passed through (a nil `cmd.Env` would inherit it, a
non-empty one replaces it). -/
theorem c10_env_not_inherited (control : ControlJSON) (parentEnv : List String)
    (h : control.environments ≠ []) :
    execEffectiveEnv (osbuildCmdEnv control) parentEnv = control.environments
    ∧ ∀ v ∈ execEffectiveEnv (osbuildCmdEnv control) parentEnv,
        v ∈ control.environments := by
  rcases hc : control.environments with _ | ⟨x, xs⟩
  · exact absurd hc h
  · refine ⟨?_, ?_⟩
    · simp [execEffectiveEnv, osbuildCmdEnv, hc]
    · intro v hv
      simpa [execEffectiveEnv, osbuildCmdEnv, hc] using hv

theorem c10_env_not_inherited_witness :
    execEffectiveEnv (osbuildCmdEnv ⟨["MY=env"], ["tree"]⟩) ["PATH=/bin"]
      = ["MY=env"] :=
  (c10_env_not_inherited ⟨["MY=env"], ["tree"]⟩ ["PATH=/bin"] (by decide)).1

/-! ## Lemmas about the output streaming -/

theorem mwWrite_stream (s : Sinks) (c : String) :
    (mwWrite s c).stream = s.stream ++ c := rfl

theorem mwWrite_log (s : Sinks) (c : String) :
    (mwWrite s c).logFile = s.logFile ++ c := rfl

theorem foldl_mwWrite_eq (chunks : List String) :
    ∀ s : Sinks, s.stream = s.logFile →
      (chunks.foldl mwWrite s).stream = (chunks.foldl mwWrite s).logFile := by
  induction chunks with
  | nil => intro s h; exact h
  | cons c cs ih =>
    intro s h
    exact ih (mwWrite s c) (by simp [mwWrite, h])

theorem foldl_mwWrite_ext (chunks : List String) :
    ∀ s : Sinks, ∃ t : String,
      (chunks.foldl mwWrite s).stream = s.stream ++ t
      ∧ (chunks.foldl mwWrite s).logFile = s.logFile ++ t := by
  induction chunks with
  | nil =>
    intro s
    exact ⟨blank, by simp [blank], by simp [blank]⟩
  | cons c cs ih =>
    intro s
    obtain ⟨t, h1, h2⟩ := ih (mwWrite s c)
    refine ⟨c ++ t, ?_, ?_⟩
    · rw [List.foldl_cons, h1]; simp [mwWrite, String.append_assoc]
    · rw [List.foldl_cons, h2]; simp [mwWrite, String.append_assoc]

/-- Claim C6: for every completed build attempt, the content written to
the `build.log` file equals, byte for byte, the transcript streamed to
the HTTP response: every write goes through the MultiWriter, which
forwards the same bytes exactly once to each of the two sinks. -/
theorem c6_log_byte_identical (bd : List String) (chunks : List String)
    (runErr : Option String) :
    (runOsbuildTranscript bd chunks runErr).stream
      = (runOsbuildTranscript bd chunks runErr).logFile := by
  rw [runOsbuildTranscript.eq_def]
  have h0 : (mwWrite ⟨blank, blank⟩ (bannerLine bd)).stream
      = (mwWrite ⟨blank, blank⟩ (bannerLine bd)).logFile := rfl
  have h1 := foldl_mwWrite_eq chunks _ h0
  cases runErr with
  | none => simpa using h1
  | some msg =>
    simp only [mwWrite_stream, mwWrite_log]
    rw [h1]

/-- Claim C7: for every admitted build, the fixed banner line
`starting <buildDir> build` is written to both sinks before the
subprocess is started (in the event trace the banner write precedes the
start event), so whatever the tool outputs, both the response stream and
the log begin with the banner line. -/
theorem c7_banner_first (bd : List String) (chunks : List String)
    (runErr : Option String) :
    (∃ t, (runOsbuildTranscript bd chunks runErr).stream = bannerLine bd ++ t
        ∧ (runOsbuildTranscript bd chunks runErr).logFile = bannerLine bd ++ t)
    ∧ (runOsbuildEvents bd chunks).get? 1
        = some (RunEvent.writeSinks (bannerLine bd))
    ∧ (runOsbuildEvents bd chunks).get? 2 = some RunEvent.startProcess := by
  refine ⟨?_, rfl, rfl⟩
  obtain ⟨t, h1, h2⟩ :=
    foldl_mwWrite_ext chunks (mwWrite ⟨blank, blank⟩ (bannerLine bd))
  have hs : (mwWrite ⟨blank, blank⟩ (bannerLine bd)).stream = bannerLine bd := by
    simp [mwWrite, blank]
  have hl : (mwWrite ⟨blank, blank⟩ (bannerLine bd)).logFile = bannerLine bd := by
    simp [mwWrite, blank]
  rw [hs] at h1
  rw [hl] at h2
  rw [runOsbuildTranscript.eq_def]
  cases runErr with
  | none => exact ⟨t, h1, h2⟩
  | some msg =>
    refine ⟨t ++ ("cannot run osbuild: " ++ msg), ?_, ?_⟩
    · simp only [mwWrite_stream, mwWrite_log]
      rw [h1, String.append_assoc]
    · simp only [mwWrite_stream, mwWrite_log]
      rw [h2, String.append_assoc]

/-! ## Lemmas about sparse reconstruction -/

theorem writeAt_extend (pre : List Nat) (rest : Nat) (c : List Nat)
    (h : c.length ≤ rest) :
    writeAt ⟨pre ++ List.replicate rest 0, pre.length⟩ c
      = ⟨(pre ++ c) ++ List.replicate (rest - c.length) 0, (pre ++ c).length⟩ := by
  rw [writeAt]
  have hlen : (pre ++ List.replicate rest 0).length = pre.length + rest := by simp
  have htake : (pre ++ List.replicate rest 0).take pre.length = pre :=
    List.take_left pre _
  have hz : pre.length - (pre ++ List.replicate rest 0).length = 0 := by
    rw [hlen]; omega
  have hdrop : (pre ++ List.replicate rest 0).drop (pre.length + c.length)
      = List.replicate (rest - c.length) 0 := by
    rw [List.drop_append, List.drop_replicate]
  rw [htake, hz, hdrop]
  simp

theorem sparse_run (chunks : List (List Nat)) :
    ∀ (pre : List Nat) (rest : Nat) (buf : List Nat) (w : Nat),
      (chunks.map List.length).sum ≤ rest →
      (chunks.foldl copyChunk
          ⟨⟨pre ++ List.replicate rest 0, pre.length⟩, buf, w⟩).file.data
        = (pre ++ chunks.flatten)
            ++ List.replicate (rest - (chunks.map List.length).sum) 0 := by
  induction chunks with
  | nil => intro pre rest buf w _; simp
  | cons c cs ih =>
    intro pre rest buf w hsum
    have hc : c.length ≤ rest := by simp at hsum; omega
    have hcs : (cs.map List.length).sum ≤ rest - c.length := by
      simp at hsum; omega
    simp only [List.foldl_cons, copyChunk]
    by_cases hz : bufZero (c ++ buf.drop c.length) = true
    · rw [if_pos hz]
      have hzc : c.all (fun x => x == 0) = true := by
        have h2 := hz
        rw [bufZero, List.all_append, Bool.and_eq_true] at h2
        exact h2.1
      have hczero : c = List.replicate c.length 0 :=
        List.eq_replicate_length.mpr
          (fun b hb => by simpa using List.all_eq_true.mp hzc b hb)
      have hdata : pre ++ List.replicate rest 0
          = (pre ++ c) ++ List.replicate (rest - c.length) 0 := by
        conv_lhs =>
          rw [show rest = c.length + (rest - c.length) from
            (Nat.add_sub_cancel' hc).symm]
        rw [List.replicate_add, ← List.append_assoc, ← hczero]
      have hpos : pre.length + c.length = (pre ++ c).length := by simp
      rw [seekCur, hdata, hpos,
        ih (pre ++ c) (rest - c.length) (c ++ buf.drop c.length) c.length hcs]
      simp [List.append_assoc, Nat.sub_sub]
    · rw [if_neg hz]
      rw [writeAt_extend pre rest c hc,
        ih (pre ++ c) (rest - c.length) (c ++ buf.drop c.length) (w + c.length) hcs]
      simp [List.append_assoc, Nat.sub_sub]

theorem plain_run (chunks : List (List Nat)) :
    ∀ (pre : List Nat) (rest : Nat),
      (chunks.map List.length).sum ≤ rest →
      (chunks.foldl writeAt ⟨pre ++ List.replicate rest 0, pre.length⟩).data
        = (pre ++ chunks.flatten)
            ++ List.replicate (rest - (chunks.map List.length).sum) 0 := by
  induction chunks with
  | nil => intro pre rest _; simp
  | cons c cs ih =>
    intro pre rest hsum
    have hc : c.length ≤ rest := by simp at hsum; omega
    have hcs : (cs.map List.length).sum ≤ rest - c.length := by
      simp at hsum; omega
    rw [List.foldl_cons, writeAt_extend pre rest c hc,
      ih (pre ++ c) (rest - c.length) hcs]
    simp [List.append_assoc, Nat.sub_sub]

/-- Claim C8: for a sparse tar entry of declared size N, truncating the
destination to N and running `copyWithSparse` over the entry's byte
stream yields exactly the content a plain byte-for-byte copy of the same
stream into a size-N file produces: the stream's bytes in order, N bytes
in all, holes indistinguishable from explicit zeros. -/
theorem c8_sparse_equals_plain (n : Nat) (chunks : List (List Nat))
    (h : (chunks.map List.length).sum = n) :
    (copyWithSparse (truncateFile emptyFile n) chunks).file.data
      = (ioCopy (truncateFile emptyFile n) chunks).data
    ∧ (copyWithSparse (truncateFile emptyFile n) chunks).file.data
      = chunks.flatten
    ∧ (copyWithSparse (truncateFile emptyFile n) chunks).file.data.length = n := by
  have htr : truncateFile emptyFile n
      = ⟨([] : List Nat) ++ List.replicate n 0, ([] : List Nat).length⟩ := by
    simp [truncateFile, emptyFile]
  have hs : (copyWithSparse (truncateFile emptyFile n) chunks).file.data
      = chunks.flatten := by
    rw [htr, copyWithSparse,
      sparse_run chunks [] n (List.replicate 1024 0) 0 (le_of_eq h)]
    simp [h]
  have hp : (ioCopy (truncateFile emptyFile n) chunks).data = chunks.flatten := by
    rw [htr, ioCopy, plain_run chunks [] n (le_of_eq h)]
    simp [h]
  refine ⟨by rw [hs, hp], hs, ?_⟩
  rw [hs, List.length_flatten, h]

theorem c8_sparse_equals_plain_witness :
    (copyWithSparse (truncateFile emptyFile 4) [[1, 0], [0, 0]]).file.data
      = [1, 0, 0, 0]
    ∧ (ioCopy (truncateFile emptyFile 4) [[1, 0], [0, 0]]).data
      = [1, 0, 0, 0] := by
  have h := c8_sparse_equals_plain 4 [[1, 0], [0, 0]] (by decide)
  exact ⟨h.2.1.trans (by decide), (h.1.symm.trans h.2.1).trans (by decide)⟩
